import Mathlib

/-!
# Internet checksum and packet inspection of `MacOS/macos_ip_checksum.c`

A shallow embedding of `inet_csum` and of the body of the receive loop of
`main`, followed by the properties of the checksum and of the inspection.

Conventions of the embedding
* memory is a `List Nat`; a byte is a number below 256 (`ByteSpan`);
* a pointer is a byte index into that list; a load outside the list gives 0
  (the theorems on `inet_csum` keep `len` within the list);
* the host is little-endian (the program is built for macOS, `__APPLE__`,
  `kqueue`): a native 16-bit load at `i` is `mem[i] + 256 * mem[i+1]`;
* `uint32_t` arithmetic is arithmetic on `Nat` followed by `% 2 ^ 32`, the
  cast to `uint16_t` is `% 2 ^ 16`.
-/

namespace MacosIpChecksum

/-! ## Memory -/

/-- A list of numbers is a span of bytes when each of them is below 256. -/
def ByteSpan (mem : List Nat) : Prop := ∀ x ∈ mem, x < 256

instance (mem : List Nat) : Decidable (ByteSpan mem) := by
  unfold ByteSpan; infer_instance

/-- Load of one byte, `*(uint8_t *) (mem + i)`. -/
def load8 (mem : List Nat) (i : Nat) : Nat := mem.getD i 0

/-- Native (little-endian) load of a 16-bit word, `*(uint16_t *) (mem + i)`. -/
def load16 (mem : List Nat) (i : Nat) : Nat := load8 mem i + 256 * load8 mem (i + 1)

/-- Native (little-endian) store of a 16-bit value, `*(uint16_t *) (mem + i) = v`. -/
def store16 (mem : List Nat) (i v : Nat) : List Nat :=
  (mem.set i (v % 256)).set (i + 1) (v / 256 % 256)

/-- Byte swap of the low 16 bits: `htons` and `ntohs` on a little-endian host. -/
def htons (x : Nat) : Nat := (x % 65536 % 256) * 256 + x % 65536 / 256

/-- The same byte swap, `ntohs`. -/
def ntohs (x : Nat) : Nat := htons x

/-! ## `inet_csum` (lines 47-75) -/

/-- State of `inet_csum` when its `while` loop is left, together with the byte
indices the loop has loaded. -/
structure CsumLoop where
  sum : Nat
  addr : Nat
  len : Int
  reads : List Nat
deriving DecidableEq

/-- The loop `while (len > 1) { sum += *addr++; len -= sizeof(*addr); }`.
The pointer `addr` is a byte index into `mem`; `sum` is a `uint32_t`. -/
def inet_csum_loop (mem : List Nat) (addr : Nat) (len : Int) (sum : Nat) (reads : List Nat) :
    CsumLoop :=
  if 1 < len then
    inet_csum_loop mem (addr + 2) (len - 2) ((sum + load16 mem addr) % 2 ^ 32)
      (reads ++ [addr, addr + 1])
  else
    ⟨sum, addr, len, reads⟩
termination_by len.toNat
decreasing_by omega

/-- Lines 51-65: the accumulator after the loop and after the remaining byte,
if any, has been added; and the byte indices loaded, in order. -/
def inet_csum_sum (mem : List Nat) (addr : Nat) (len : Int) : Nat × List Nat :=
  let s := inet_csum_loop mem addr len 0 []
  if s.len = 1 then
    ((s.sum + load8 mem s.addr) % 2 ^ 32, s.reads ++ [s.addr])
  else
    (s.sum, s.reads)

/-- Lines 67-72: the two carry folds and the one's complement,
`sum = (sum >> 16) + (sum & 0xffff); sum += (sum >> 16); answer = (uint16_t) ~sum`. -/
def inet_csum_fold (sum : Nat) : Nat :=
  let sum := ((sum >>> 16) + (sum &&& 0xffff)) % 2 ^ 32
  let sum := (sum + (sum >>> 16)) % 2 ^ 32
  (2 ^ 32 - 1 - sum) % 2 ^ 16

/-- The value returned by `inet_csum(mem + addr, len)`. -/
def inet_csum (mem : List Nat) (addr : Nat) (len : Int) : Nat :=
  inet_csum_fold (inet_csum_sum mem addr len).1

/-- The byte indices of `mem` loaded by `inet_csum(mem + addr, len)`, in order. -/
def inet_csum_reads (mem : List Nat) (addr : Nat) (len : Int) : List Nat :=
  (inet_csum_sum mem addr len).2

/-! ## The checksum as the specification words it -/

/-- The 16-bit words of a span in native order; a trailing single byte is the
low byte of a word whose high byte is zero. -/
def words16 : List Nat → List Nat
  | a :: b :: rest => (a + 256 * b) :: words16 rest
  | [a] => [a]
  | [] => []

/-- Exact (unbounded) sum of the 16-bit words of a span. -/
def wordSum (l : List Nat) : Nat := (words16 l).sum

/-- Add the upper 16 bits into the lower 16 bits, again and again, until the
sum fits in 16 bits. -/
def fold_carries (s : Nat) : Nat :=
  if s < 65536 then s else fold_carries (s / 65536 + s % 65536)
termination_by s
decreasing_by omega

/-- RFC 1071: the 16-bit complement of the folded sum of the words. -/
def rfc1071 (l : List Nat) : Nat := 65535 - fold_carries (wordSum l)

/-! ## The two validity tests of `main` -/

/-- Lines 207-208, the test used for the IP header: the checksum over the
header as received, checksum field included, is zero. -/
def ip_csum_ok (h : List Nat) : Prop := inet_csum h 0 (h.length : Int) = 0

instance (h : List Nat) : Decidable (ip_csum_ok h) := by
  unfold ip_csum_ok; infer_instance

/-- Lines 232-235, the test used for the IGMP header: the stored checksum field
(at byte offset `off` of the span) equals the checksum recomputed over the span
with that field set to zero. -/
def igmp_csum_ok (h : List Nat) (off : Nat) : Prop :=
  load16 h off = inet_csum (store16 h off 0) 0 (h.length : Int)

instance (h : List Nat) (off : Nat) : Decidable (igmp_csum_ok h off) := by
  unfold igmp_csum_ok; infer_instance

/-! ## The body of the receive loop of `main` (lines 183-240) -/

/-- A line printed by the loop body; the constructors follow the `printf` calls. -/
inductive Line where
  | received (bytes : Nat)
  | ip_src (a b c d : Nat)
  | ip_dst (a b c d : Nat)
  | ip_hl (n : Nat)
  | ip_len (n : Nat)
  | ip_off (n : Nat)
  | ip_flags (n : Nat)
  | ip_csum (n : Nat)
  | ip_checksum_error (should_be : Nat)
  | too_short (bytes : Nat)
  | igmp_len (n : Nat)
  | igmp_type (n : Nat)
  | igmp_code (n : Nat)
  | igmp_csum (n : Nat)
  | igmp_grp (a b c d : Nat)
  | igmp_checksum_error (should_be : Nat)
  | blank
deriving DecidableEq

/-- What the loop body does that can be observed: a load of `packet_buffer[i]`,
a store to it, a call of `inet_csum` (tagged with the source line of the call)
and a printed line. -/
inductive Event where
  | read (i : Nat)
  | write (i v : Nat)
  | csum (site : Nat) (addr : Nat) (len : Int) (answer : Nat)
  | print (l : Line)
deriving DecidableEq

/-- State threaded through the loop body: the packet buffer and the events so far. -/
structure Inspect where
  buf : List Nat
  trace : List Event
deriving DecidableEq

/-- Record the loads of the `n` bytes at `i`. -/
def Inspect.read (s : Inspect) (i n : Nat) : Inspect :=
  { s with trace := s.trace ++ (List.range' i n).map Event.read }

/-- A native 16-bit store at `i`. -/
def Inspect.store16 (s : Inspect) (i v : Nat) : Inspect :=
  { buf := MacosIpChecksum.store16 s.buf i v,
    trace := s.trace ++ [Event.write i (v % 256), Event.write (i + 1) (v / 256 % 256)] }

/-- A `printf`. -/
def Inspect.print (s : Inspect) (l : Line) : Inspect :=
  { s with trace := s.trace ++ [Event.print l] }

/-- A call `inet_csum((uint16_t *) (packet_buffer + addr), len)` at source line `site`. -/
def Inspect.csum (s : Inspect) (site addr : Nat) (len : Int) : Inspect :=
  { s with trace := s.trace ++ Event.csum site addr len (inet_csum s.buf addr len) ::
      (inet_csum_reads s.buf addr len).map Event.read }

/-- The bit-field `ip->ip_hl`. With `BYTE_ORDER == LITTLE_ENDIAN`, `struct ip` of
`<netinet/ip.h>` declares `u_int ip_hl:4, ip_v:4;`: the header length is the
low-order four bits of the first byte, the version the high-order four. -/
def ip_hl (packet_buffer : List Nat) : Nat := load8 packet_buffer 0 % 16

/-- Line 187, `ip_header_len = ip->ip_hl << 2`. -/
def ip_header_len (packet_buffer : List Nat) : Nat := ip_hl packet_buffer <<< 2

/-- The value of `sizeof(struct igmp)`: type, code, checksum, group address. -/
def sizeof_igmp : Nat := 8

/-- Line 199, `ip->ip_len = htons(ip_header_len + ip->ip_len)`, on the buffer alone. -/
def fix_ip_len (packet_buffer : List Nat) : List Nat :=
  store16 packet_buffer 2 (htons (ip_header_len packet_buffer + load16 packet_buffer 2))

/-- Lines 183-206: from `Received` to the dump of the IP header fields, the
correction of `ip_len` included. -/
def inspect_ip_fields (packet_buffer : List Nat) (bytes : Nat) : Inspect :=
  let s : Inspect := ⟨packet_buffer, []⟩
  -- 183
  let s := s.print (Line.received bytes)
  -- 186-187: ip = packet_buffer, ip_header_len = ip->ip_hl << 2
  let ip_header_len := ip_hl s.buf <<< 2
  let s := s.read 0 1
  -- 189-193
  let s := (s.read 12 4).print
    (Line.ip_src (load8 s.buf 12) (load8 s.buf 13) (load8 s.buf 14) (load8 s.buf 15))
  let s := (s.read 16 4).print
    (Line.ip_dst (load8 s.buf 16) (load8 s.buf 17) (load8 s.buf 18) (load8 s.buf 19))
  -- 199
  let ip_len := load16 s.buf 2
  let s := (s.read 2 2).store16 2 (htons (ip_header_len + ip_len))
  -- 202-206
  let s := (s.read 0 1).print (Line.ip_hl (ip_hl s.buf <<< 2))
  let s := (s.read 2 2).print (Line.ip_len (ntohs (load16 s.buf 2)))
  let s := (s.read 6 2).print (Line.ip_off (ntohs (load16 s.buf 6) &&& 0x1fff))
  let s := (s.read 6 2).print (Line.ip_flags (ntohs (load16 s.buf 6) &&& 0xe000))
  (s.read 10 2).print (Line.ip_csum (load16 s.buf 10))

/-- Lines 207-214: the IP checksum and its verdict. -/
def inspect_ip_csum (s : Inspect) (ip_header_len : Nat) : Inspect :=
  -- 207
  let calculated_csum := inet_csum s.buf 0 (ip_header_len : Int)
  let s := s.csum 207 0 (ip_header_len : Int)
  -- 208-214
  if calculated_csum ≠ 0 then
    let s := s.store16 10 0
    let calculated_csum := inet_csum s.buf 0 (ip_header_len : Int)
    let s := s.csum 212 0 (ip_header_len : Int)
    s.print (Line.ip_checksum_error calculated_csum)
  else
    s

/-- Lines 223-240: the IGMP header, entered when the length check has passed,
so that `bytes - ip_header_len` is not negative. -/
def inspect_igmp (s : Inspect) (ip_header_len bytes : Nat) : Inspect :=
  -- 224-226: igmp = packet_buffer + ip_header_len
  let igmp := ip_header_len
  let igmp_len := bytes - ip_header_len
  let s := s.print (Line.igmp_len igmp_len)
  -- 227-230
  let s := (s.read igmp 1).print (Line.igmp_type (load8 s.buf igmp))
  let s := (s.read (igmp + 1) 1).print (Line.igmp_code (load8 s.buf (igmp + 1)))
  let s := (s.read (igmp + 2) 2).print (Line.igmp_csum (load16 s.buf (igmp + 2)))
  let s := (s.read (igmp + 4) 4).print (Line.igmp_grp (load8 s.buf (igmp + 4))
    (load8 s.buf (igmp + 5)) (load8 s.buf (igmp + 6)) (load8 s.buf (igmp + 7)))
  -- 232-234
  let original_csum := load16 s.buf (igmp + 2)
  let s := (s.read (igmp + 2) 2).store16 (igmp + 2) 0
  let calculated_csum := inet_csum s.buf igmp (igmp_len : Int)
  let s := s.csum 234 igmp (igmp_len : Int)
  -- 235-238
  let s := if original_csum ≠ calculated_csum then
    s.print (Line.igmp_checksum_error calculated_csum) else s
  -- 240
  s.print Line.blank

/-- The loop body after a successful `recvfrom` that returned `bytes` (lines
183-240): `packet_buffer` is the buffer as `recvfrom` left it, `bytes` is not
negative since the branch `bytes == -1` has left the iteration at line 180. The
comparison of line 217 is made in `unsigned long`, on numbers that are not
negative. -/
def inspect (packet_buffer : List Nat) (bytes : Nat) : Inspect :=
  let ip_header_len := ip_hl packet_buffer <<< 2
  let s := inspect_ip_csum (inspect_ip_fields packet_buffer bytes) ip_header_len
  -- 217-221
  if ip_header_len + sizeof_igmp > bytes then
    s.print (Line.too_short bytes)
  else
    inspect_igmp s ip_header_len bytes

/-- An event of the IGMP part of the loop body: one of its printed lines or its
call of `inet_csum`. -/
def Event.isIgmp : Event → Bool
  | Event.print (Line.igmp_len _) => true
  | Event.print (Line.igmp_type _) => true
  | Event.print (Line.igmp_code _) => true
  | Event.print (Line.igmp_csum _) => true
  | Event.print (Line.igmp_grp _ _ _ _) => true
  | Event.print (Line.igmp_checksum_error _) => true
  | Event.csum 234 _ _ _ => true
  | _ => false

/-- An event is a call of `inet_csum`. -/
def Event.isCsum : Event → Bool
  | Event.csum _ _ _ _ => true
  | _ => false

/-- An event is the `too short for IGMP` line of line 219. -/
def Event.isTooShort : Event → Bool
  | Event.print (Line.too_short _) => true
  | _ => false

/-- An event is not a load, or is a load at an index below `n`. -/
def Event.readBelow (n : Nat) : Event → Bool
  | Event.read i => decide (i < n)
  | _ => true

/-- The loop body reports a mismatch of the IGMP checksum (line 237). -/
def igmp_error_printed (packet_buffer : List Nat) (bytes : Nat) : Prop :=
  ∃ should_be, Event.print (Line.igmp_checksum_error should_be) ∈
    (inspect packet_buffer bytes).trace

/-- The events of lines 223-240 written out, for a buffer `buf` at line 223. -/
def igmp_events (buf : List Nat) (ihl bytes : Nat) : List Event :=
  [Event.print (Line.igmp_len (bytes - ihl)),
    Event.read ihl, Event.print (Line.igmp_type (load8 buf ihl)),
    Event.read (ihl + 1), Event.print (Line.igmp_code (load8 buf (ihl + 1))),
    Event.read (ihl + 2), Event.read (ihl + 3),
    Event.print (Line.igmp_csum (load16 buf (ihl + 2))),
    Event.read (ihl + 4), Event.read (ihl + 5), Event.read (ihl + 6), Event.read (ihl + 7),
    Event.print (Line.igmp_grp (load8 buf (ihl + 4)) (load8 buf (ihl + 5))
      (load8 buf (ihl + 6)) (load8 buf (ihl + 7))),
    Event.read (ihl + 2), Event.read (ihl + 3),
    Event.write (ihl + 2) 0, Event.write (ihl + 3) 0,
    Event.csum 234 ihl ((bytes - ihl : Nat) : Int)
      (inet_csum (store16 buf (ihl + 2) 0) ihl ((bytes - ihl : Nat) : Int))] ++
  (List.range' ihl (bytes - ihl)).map Event.read ++
  (if load16 buf (ihl + 2) ≠
      inet_csum (store16 buf (ihl + 2) 0) ihl ((bytes - ihl : Nat) : Int) then
    [Event.print (Line.igmp_checksum_error
      (inet_csum (store16 buf (ihl + 2) 0) ihl ((bytes - ihl : Nat) : Int)))]
  else []) ++
  [Event.print Line.blank]

/-! ## Sample data -/

/-- The textbook IPv4 header `45 00 00 3c 1c 46 40 00 40 06 b1 e6 ac 10 0a 63 ac 10 0a 0c`. -/
def sample_ip_header : List Nat :=
  [0x45, 0, 0, 0x3c, 0x1c, 0x46, 0x40, 0, 0x40, 6, 0xb1, 0xe6, 0xac, 0x10, 0x0a, 0x63,
    0xac, 0x10, 0x0a, 0x0c]

/-- The same header as a raw socket of the platform hands it over: the total
length field holds 12 in host byte order (`0c 00`), the header length taken off. -/
def sample_quirked_header : List Nat :=
  [0x45, 0, 12, 0, 0x1c, 0x46, 0x40, 0, 0x40, 6, 0xb1, 0xe6, 0xac, 0x10, 0x0a, 0x63,
    0xac, 0x10, 0x0a, 0x0c]

/-- A buffer whose first byte `40` gives a header length field of zero. -/
def sample_no_header : List Nat :=
  [0x40, 0, 0, 0, 0, 0, 0, 0, 0, 0, 0, 0, 0, 0, 0, 0, 0, 0, 0, 0]

/-- An IGMP membership query `11 00 ee ff 00 00 00 00` (general query, checksum
field `ee ff`). -/
def sample_igmp_query : List Nat := [0x11, 0, 0xee, 0xff, 0, 0, 0, 0]

/-! ## Auxiliary sums used in the proofs -/

/-- Exact sum of the `n / 2` complete words that start at byte index `addr`. -/
def spanWords (mem : List Nat) (addr : Nat) : Nat → Nat
  | n + 2 => load16 mem addr + spanWords mem (addr + 2) n
  | _ => 0

/-- Exact sum of the words of the `n` bytes that start at byte index `addr`,
the trailing byte of an odd span included. -/
def spanSum (mem : List Nat) (addr : Nat) : Nat → Nat
  | n + 2 => load16 mem addr + spanSum mem (addr + 2) n
  | 1 => load8 mem addr
  | 0 => 0

/-- One's-complement reduction of an exact sum to 16 bits: `0` stays `0`, every
other sum goes to its representative in `1 .. 65535` modulo `65535`. -/
def onesFold (s : Nat) : Nat := if s = 0 then 0 else (s - 1) % 65535 + 1

/-- Weight of byte `i` in the word sum of a span that starts at an even index. -/
def byteWeight (i : Nat) : Nat := if i % 2 = 0 then 1 else 256

/-! ## Lemmas on `inet_csum` -/

theorem inet_csum_loop_done (mem : List Nat) (addr : Nat) (len : Int) (sum : Nat)
    (reads : List Nat) (h : ¬ 1 < len) :
    inet_csum_loop mem addr len sum reads = ⟨sum, addr, len, reads⟩ := by
  rw [inet_csum_loop, if_neg h]

theorem inet_csum_loop_step (mem : List Nat) (addr : Nat) (len : Int) (sum : Nat)
    (reads : List Nat) (h : 1 < len) :
    inet_csum_loop mem addr len sum reads =
      inet_csum_loop mem (addr + 2) (len - 2) ((sum + load16 mem addr) % 2 ^ 32)
        (reads ++ [addr, addr + 1]) := by
  rw [inet_csum_loop, if_pos h]

theorem inet_csum_loop_spec (mem : List Nat) :
    ∀ (n addr sum : Nat) (reads : List Nat), sum + spanWords mem addr n < 2 ^ 32 →
      inet_csum_loop mem addr (n : Int) sum reads =
        ⟨sum + spanWords mem addr n, addr + 2 * (n / 2), ((n % 2 : Nat) : Int),
          reads ++ List.range' addr (2 * (n / 2))⟩
  | 0, addr, sum, reads, _ => by
    rw [inet_csum_loop_done _ _ _ _ _ (by omega)]
    simp [spanWords]
  | 1, addr, sum, reads, _ => by
    rw [inet_csum_loop_done _ _ _ _ _ (by omega)]
    simp [spanWords]
  | n + 2, addr, sum, reads, h => by
    rw [inet_csum_loop_step _ _ _ _ _ (by omega)]
    have e : ((n + 2 : Nat) : Int) - 2 = (n : Int) := by omega
    simp only [spanWords] at h
    have hlt : sum + load16 mem addr < 2 ^ 32 := by omega
    rw [e, Nat.mod_eq_of_lt hlt, inet_csum_loop_spec mem n (addr + 2) _ _ (by omega)]
    have e2 : 2 * ((n + 2) / 2) = 2 * (n / 2) + 1 + 1 := by omega
    have e3 : (n + 2) % 2 = n % 2 := by omega
    simp only [spanWords, e2, e3, List.range'_succ, List.append_assoc, List.cons_append,
      List.nil_append, CsumLoop.mk.injEq, true_and, and_true]
    omega

theorem inet_csum_loop_shape (mem : List Nat) :
    ∀ (n addr sum : Nat) (reads : List Nat),
      ∃ total, inet_csum_loop mem addr (n : Int) sum reads =
        ⟨total, addr + 2 * (n / 2), ((n % 2 : Nat) : Int),
          reads ++ List.range' addr (2 * (n / 2))⟩
  | 0, addr, sum, reads => by
    rw [inet_csum_loop_done _ _ _ _ _ (by omega)]
    exact ⟨sum, by simp⟩
  | 1, addr, sum, reads => by
    rw [inet_csum_loop_done _ _ _ _ _ (by omega)]
    exact ⟨sum, by simp⟩
  | n + 2, addr, sum, reads => by
    rw [inet_csum_loop_step _ _ _ _ _ (by omega)]
    have e : ((n + 2 : Nat) : Int) - 2 = (n : Int) := by omega
    rw [e]
    obtain ⟨total, ht⟩ := inet_csum_loop_shape mem n (addr + 2)
      ((sum + load16 mem addr) % 2 ^ 32) (reads ++ [addr, addr + 1])
    refine ⟨total, ?_⟩
    rw [ht]
    have e2 : 2 * ((n + 2) / 2) = 2 * (n / 2) + 1 + 1 := by omega
    have e3 : (n + 2) % 2 = n % 2 := by omega
    simp only [e2, e3, List.range'_succ, List.append_assoc, List.cons_append,
      List.nil_append, CsumLoop.mk.injEq, true_and, and_true]
    omega

theorem spanSum_eq_spanWords (mem : List Nat) :
    ∀ (n addr : Nat), spanSum mem addr n =
      spanWords mem addr n + (if n % 2 = 1 then load8 mem (addr + 2 * (n / 2)) else 0)
  | 0, addr => by simp [spanSum, spanWords]
  | 1, addr => by simp [spanSum, spanWords]
  | n + 2, addr => by
    have e2 : 2 * ((n + 2) / 2) = 2 * (n / 2) + 2 := by omega
    have e3 : (n + 2) % 2 = n % 2 := by omega
    simp only [spanSum, spanWords, spanSum_eq_spanWords mem n (addr + 2), e2, e3]
    have e4 : addr + 2 + 2 * (n / 2) = addr + (2 * (n / 2) + 2) := by omega
    rw [e4]
    omega

theorem inet_csum_sum_spec (mem : List Nat) (addr n : Nat) (h : spanSum mem addr n < 2 ^ 32) :
    inet_csum_sum mem addr (n : Int) = (spanSum mem addr n, List.range' addr n) := by
  rw [spanSum_eq_spanWords] at h
  have hw : 0 + spanWords mem addr n < 2 ^ 32 := by omega
  unfold inet_csum_sum
  rw [inet_csum_loop_spec mem n addr 0 [] hw, spanSum_eq_spanWords]
  rcases Nat.mod_two_eq_zero_or_one n with h0 | h1
  · have e : 2 * (n / 2) = n := by omega
    simp [h0, e]
  · have e : n = 2 * (n / 2) + 1 := by omega
    simp only [h1, Nat.cast_one, if_true, zero_add, List.nil_append] at h ⊢
    rw [Nat.mod_eq_of_lt h]
    congr 1
    conv_rhs => rw [e, List.range'_concat]
    rw [one_mul]

theorem inet_csum_reads_eq (mem : List Nat) (addr n : Nat) :
    inet_csum_reads mem addr (n : Int) = List.range' addr n := by
  obtain ⟨total, ht⟩ := inet_csum_loop_shape mem n addr 0 []
  unfold inet_csum_reads inet_csum_sum
  rw [ht]
  rcases Nat.mod_two_eq_zero_or_one n with h0 | h1
  · have e : 2 * (n / 2) = n := by omega
    simp [h0, e]
  · have e : n = 2 * (n / 2) + 1 := by omega
    simp only [h1, Nat.cast_one, if_true, List.nil_append]
    conv_rhs => rw [e, List.range'_concat]
    rw [one_mul]

theorem load8_lt (mem : List Nat) (hb : ByteSpan mem) (i : Nat) : load8 mem i < 256 := by
  unfold load8
  by_cases h : i < mem.length
  · rw [List.getD_eq_getElem _ _ h]
    exact hb _ (List.getElem_mem h)
  · rw [List.getD_eq_default _ _ (by omega)]
    omega

theorem spanSum_le (mem : List Nat) (hb : ByteSpan mem) :
    ∀ (n addr : Nat), 2 * spanSum mem addr n ≤ 65535 * (n + 1)
  | 0, addr => by simp [spanSum]
  | 1, addr => by
    have := load8_lt mem hb addr
    simp only [spanSum]
    omega
  | n + 2, addr => by
    have h0 := load8_lt mem hb addr
    have h1 := load8_lt mem hb (addr + 1)
    have ih := spanSum_le mem hb n (addr + 2)
    simp only [spanSum, load16]
    omega

theorem inet_csum_fold_eq (s : Nat) (h : s < 2 ^ 32) :
    inet_csum_fold s = 65535 - onesFold s := by
  unfold inet_csum_fold onesFold
  have e3 : ∀ t : Nat, t >>> 16 = t / 65536 := fun t => by rw [Nat.shiftRight_eq_div_pow]
  have e2 : s &&& 0xffff = s % 65536 := Nat.and_pow_two_sub_one_eq_mod s 16
  simp only [e3, e2]
  have hq : s / 65536 < 65536 := by omega
  have hr : s % 65536 < 65536 := by omega
  have hs : s = 65536 * (s / 65536) + s % 65536 := by omega
  generalize s / 65536 = q at hq hs ⊢
  generalize s % 65536 = r at hr hs ⊢
  subst hs
  rw [Nat.mod_eq_of_lt (show q + r < 2 ^ 32 by omega)]
  by_cases hc : q + r < 65536
  · have e : (q + r) / 65536 = 0 := by omega
    rw [e, Nat.add_zero, Nat.mod_eq_of_lt (show q + r < 2 ^ 32 by omega)]
    split <;> omega
  · have e : (q + r) / 65536 = 1 := by omega
    rw [e, Nat.mod_eq_of_lt (show q + r + 1 < 2 ^ 32 by omega)]
    clear h e
    have k1 : (65536 * q + r - 1) % 65535 = q + r - 65536 := by omega
    have k2 : (2 ^ 32 - 1 - (q + r + 1)) % 2 ^ 16 = 131070 - (q + r) := by omega
    rw [k1, k2]
    split <;> omega

theorem onesFold_le (s : Nat) : onesFold s ≤ 65535 := by
  unfold onesFold; split <;> omega

theorem fold_carries_eq (s : Nat) : fold_carries s = onesFold s := by
  induction s using Nat.strong_induction_on with
  | _ s ih =>
    rw [fold_carries]
    split
    · unfold onesFold; split <;> omega
    · rw [ih _ (by omega)]
      unfold onesFold
      split <;> split <;> omega

/-- Value of `inet_csum` on `n` bytes at `addr`, no more than 65536 of them: the
accumulator holds the exact sum of the words. -/
theorem inet_csum_eq (mem : List Nat) (hb : ByteSpan mem) (addr n : Nat) (hn : n ≤ 65536) :
    inet_csum mem addr (n : Int) = 65535 - onesFold (spanSum mem addr n) := by
  have hs := spanSum_le mem hb n addr
  have hlt : spanSum mem addr n < 2 ^ 32 := by omega
  unfold inet_csum
  rw [inet_csum_sum_spec mem addr n hlt, inet_csum_fold_eq _ hlt]

theorem load8_append_cons (front : List Nat) (a : Nat) (rest : List Nat) :
    load8 (front ++ a :: rest) front.length = a := by
  unfold load8
  rw [List.getD_eq_getElem _ _ (by simp), List.getElem_append_right (by simp)]
  simp

theorem spanSum_append :
    ∀ (l front rest : List Nat),
      spanSum (front ++ (l ++ rest)) front.length l.length = wordSum l
  | [], front, rest => by simp [spanSum, wordSum, words16]
  | [a], front, rest => by
    simp only [List.length_singleton, spanSum, List.singleton_append, load8_append_cons,
      wordSum, words16, List.sum_cons, List.sum_nil, Nat.add_zero]
  | a :: b :: l, front, rest => by
    have e1 : load8 (front ++ (a :: b :: l ++ rest)) front.length = a := by
      simpa using load8_append_cons front a (b :: l ++ rest)
    have e2 : load8 (front ++ (a :: b :: l ++ rest)) (front.length + 1) = b := by
      have := load8_append_cons (front ++ [a]) b (l ++ rest)
      simpa using this
    have e3 : spanSum (front ++ (a :: b :: l ++ rest)) (front.length + 2) l.length =
        wordSum l := by
      have := spanSum_append l (front ++ [a, b]) rest
      simpa using this
    simp only [List.length_cons, spanSum, load16, e1, e2, e3, wordSum, words16, List.sum_cons]

theorem spanSum_whole (l : List Nat) : spanSum l 0 l.length = wordSum l := by
  simpa using spanSum_append l [] []

/-- Value of `inet_csum` over a whole span of at most 65536 bytes. -/
theorem inet_csum_span (l : List Nat) (hb : ByteSpan l) (hn : l.length ≤ 65536) :
    inet_csum l 0 (l.length : Int) = 65535 - onesFold (wordSum l) := by
  rw [inet_csum_eq l hb 0 l.length hn, spanSum_whole]

theorem wordSum_set :
    ∀ (l : List Nat) (i v : Nat), i < l.length →
      wordSum (l.set i v) + byteWeight i * l.getD i 0 = wordSum l + byteWeight i * v
  | [], i, v, h => by simp at h
  | [a], i, v, h => by
    have : i = 0 := by simpa using h
    subst this
    simp [wordSum, words16, byteWeight]
    omega
  | a :: b :: l, 0, v, _ => by
    simp [wordSum, words16, byteWeight]
    omega
  | a :: b :: l, 1, v, _ => by
    simp [wordSum, words16, byteWeight]
    omega
  | a :: b :: l, i + 2, v, h => by
    have ih := wordSum_set l i v (by simpa using h)
    have ew : byteWeight (i + 2) = byteWeight i := by
      unfold byteWeight
      have : (i + 2) % 2 = i % 2 := by omega
      rw [this]
    simp only [wordSum, words16, List.set_cons_succ, List.sum_cons, ew,
      List.getD_cons_succ] at ih ⊢
    omega

theorem wordSum_append_zero :
    ∀ (l : List Nat), l.length % 2 = 1 → wordSum (l ++ [0]) = wordSum l
  | [], h => by simp at h
  | [a], _ => by simp [wordSum, words16]
  | a :: b :: l, h => by
    have ih := wordSum_append_zero l (by simp only [List.length_cons] at h; omega)
    simp only [wordSum] at ih
    simp only [wordSum, words16, List.cons_append, List.sum_cons]
    exact congrArg (a + 256 * b + ·) ih

theorem byteSpan_set (l : List Nat) (hb : ByteSpan l) (i v : Nat) (hv : v < 256) :
    ByteSpan (l.set i v) := by
  intro x hx
  rcases List.mem_or_eq_of_mem_set hx with h | h
  · exact hb x h
  · omega

theorem byteSpan_store16 (l : List Nat) (hb : ByteSpan l) (i v : Nat) :
    ByteSpan (store16 l i v) := by
  unfold store16
  exact byteSpan_set _ (byteSpan_set _ hb _ _ (by omega)) _ _ (by omega)

theorem length_store16 (l : List Nat) (i v : Nat) : (store16 l i v).length = l.length := by
  simp [store16]

theorem load8_set_ne (l : List Nat) (i j v : Nat) (h : i ≠ j) :
    load8 (l.set i v) j = load8 l j := by
  simp [load8, List.getD_eq_getElem?_getD, List.getElem?_set_ne h]

theorem load8_set_eq (l : List Nat) (i v : Nat) (h : i < l.length) :
    load8 (l.set i v) i = v := by
  simp [load8, List.getD_eq_getElem?_getD, h]

theorem wordSum_store16 (l : List Nat) (off v : Nat) (heven : off % 2 = 0)
    (hin : off + 2 ≤ l.length) :
    wordSum (store16 l off v) + load16 l off = wordSum l + v % 65536 := by
  have h1 := wordSum_set l off (v % 256) (by omega)
  have h2 := wordSum_set (l.set off (v % 256)) (off + 1) (v / 256 % 256)
    (by rw [List.length_set]; omega)
  have w0 : byteWeight off = 1 := by simp [byteWeight, heven]
  have w1 : byteWeight (off + 1) = 256 := by
    have : (off + 1) % 2 = 1 := by omega
    simp [byteWeight, this]
  have g : (l.set off (v % 256)).getD (off + 1) 0 = l.getD (off + 1) 0 :=
    load8_set_ne l off (off + 1) _ (by omega)
  rw [w0] at h1
  rw [w1, g] at h2
  simp only [store16, load16, load8]
  omega

theorem load16_lt (l : List Nat) (hb : ByteSpan l) (i : Nat) : load16 l i < 65536 := by
  have h0 := load8_lt l hb i
  have h1 := load8_lt l hb (i + 1)
  unfold load16
  omega

theorem onesFold_top (x : Nat) : onesFold x = 65535 ↔ 0 < x ∧ x % 65535 = 0 := by
  unfold onesFold; split <;> omega

theorem onesFold_mod (x : Nat) : onesFold x ≤ x ∧ (x - onesFold x) % 65535 = 0 := by
  unfold onesFold; split <;> omega

theorem sample_igmp_query_ok : igmp_csum_ok sample_igmp_query 2 := by
  unfold igmp_csum_ok
  have h := inet_csum_span (store16 sample_igmp_query 2 0) (by decide) (by decide)
  have e : ((store16 sample_igmp_query 2 0).length : Int) = (sample_igmp_query.length : Int) := by
    decide
  rw [e] at h
  rw [h]
  decide

theorem spanSum_take (b : List Nat) (k : Nat) (hk : k ≤ b.length) :
    spanSum b 0 k = wordSum (b.take k) := by
  have h := spanSum_append (b.take k) [] (b.drop k)
  simp only [List.nil_append, List.take_append_drop, List.length_nil, List.length_take] at h
  rwa [Nat.min_eq_left hk] at h

theorem inspect_ip_fields_buf (buf : List Nat) (bytes : Nat) :
    (inspect_ip_fields buf bytes).buf = fix_ip_len buf := rfl

theorem inspect_ip_fields_trace (buf : List Nat) (bytes : Nat) :
    (inspect_ip_fields buf bytes).trace =
      [Event.print (Line.received bytes), Event.read 0,
        Event.read 12, Event.read 13, Event.read 14, Event.read 15,
        Event.print (Line.ip_src (load8 buf 12) (load8 buf 13) (load8 buf 14) (load8 buf 15)),
        Event.read 16, Event.read 17, Event.read 18, Event.read 19,
        Event.print (Line.ip_dst (load8 buf 16) (load8 buf 17) (load8 buf 18) (load8 buf 19)),
        Event.read 2, Event.read 3,
        Event.write 2 (htons (ip_header_len buf + load16 buf 2) % 256),
        Event.write 3 (htons (ip_header_len buf + load16 buf 2) / 256 % 256),
        Event.read 0, Event.print (Line.ip_hl (ip_hl (fix_ip_len buf) <<< 2)),
        Event.read 2, Event.read 3,
        Event.print (Line.ip_len (ntohs (load16 (fix_ip_len buf) 2))),
        Event.read 6, Event.read 7,
        Event.print (Line.ip_off (ntohs (load16 (fix_ip_len buf) 6) &&& 0x1fff)),
        Event.read 6, Event.read 7,
        Event.print (Line.ip_flags (ntohs (load16 (fix_ip_len buf) 6) &&& 0xe000)),
        Event.read 10, Event.read 11,
        Event.print (Line.ip_csum (load16 (fix_ip_len buf) 10))] := by
  simp [inspect_ip_fields, Inspect.print, Inspect.read, Inspect.store16, fix_ip_len,
    ip_header_len, List.range'_succ]

theorem inspect_ip_csum_trace (s : Inspect) (ihl : Nat) :
    (inspect_ip_csum s ihl).trace =
      s.trace ++ (Event.csum 207 0 (ihl : Int) (inet_csum s.buf 0 (ihl : Int)) ::
        (List.range' 0 ihl).map Event.read) ++
      (if inet_csum s.buf 0 (ihl : Int) ≠ 0 then
        [Event.write 10 0, Event.write 11 0,
          Event.csum 212 0 (ihl : Int) (inet_csum (store16 s.buf 10 0) 0 (ihl : Int))] ++
        (List.range' 0 ihl).map Event.read ++
        [Event.print (Line.ip_checksum_error (inet_csum (store16 s.buf 10 0) 0 (ihl : Int)))]
      else []) := by
  unfold inspect_ip_csum
  simp only [Inspect.csum, Inspect.store16, Inspect.print, inet_csum_reads_eq]
  split <;> simp

theorem inspect_igmp_trace (s : Inspect) (ihl bytes : Nat) :
    (inspect_igmp s ihl bytes).trace = s.trace ++ igmp_events s.buf ihl bytes := by
  unfold inspect_igmp igmp_events
  simp only [Inspect.csum, Inspect.store16, Inspect.print, Inspect.read, inet_csum_reads_eq]
  split <;> simp [List.range'_succ]

theorem inspect_short (buf : List Nat) (bytes : Nat) (h : bytes < ip_header_len buf + 8) :
    (inspect buf bytes).trace =
      (inspect_ip_csum (inspect_ip_fields buf bytes) (ip_header_len buf)).trace ++
        [Event.print (Line.too_short bytes)] := by
  unfold inspect
  unfold ip_header_len at h
  simp only [sizeof_igmp, gt_iff_lt, h, if_true, Inspect.print, ip_header_len]

theorem inspect_long (buf : List Nat) (bytes : Nat) (h : ip_header_len buf + 8 ≤ bytes) :
    inspect buf bytes =
      inspect_igmp (inspect_ip_csum (inspect_ip_fields buf bytes) (ip_header_len buf))
        (ip_header_len buf) bytes := by
  unfold inspect
  unfold ip_header_len at h
  have h1 : ¬ (bytes < ip_hl buf <<< 2 + 8) := by omega
  simp only [sizeof_igmp, gt_iff_lt, h1, if_false, ip_header_len]

theorem ip_part_events (buf : List Nat) (bytes : Nat) :
    (inspect_ip_csum (inspect_ip_fields buf bytes) (ip_header_len buf)).trace.all
      (fun e => !e.isIgmp && !e.isTooShort && e.readBelow (max 20 (ip_header_len buf))) =
        true := by
  rw [inspect_ip_csum_trace, inspect_ip_fields_trace]
  split <;>
    simp [List.all_append, List.all_map, Event.isIgmp, Event.isTooShort, Event.readBelow,
      List.mem_range'_1] <;>
    exact fun a ha => Or.inr ha

theorem igmp_events_all (buf : List Nat) (ihl bytes : Nat) (h : ihl + 8 ≤ bytes) :
    (igmp_events buf ihl bytes).all (fun e => !e.isTooShort && e.readBelow bytes) = true := by
  unfold igmp_events
  have h0 : ihl < bytes := by omega
  have h1 : ihl + 1 < bytes := by omega
  have h2 : ihl + 2 < bytes := by omega
  have h3 : ihl + 3 < bytes := by omega
  have h4 : ihl + 4 < bytes := by omega
  have h5 : ihl + 5 < bytes := by omega
  have h6 : ihl + 6 < bytes := by omega
  have h7 : ihl + 7 < bytes := by omega
  split <;>
    simp [List.all_append, List.all_map, Event.isTooShort, Event.readBelow,
      List.mem_range'_1, h0, h1, h2, h3, h4, h5, h6, h7] <;>
    · intro x i hi1 hi2 hx
      subst hx
      simp only [decide_eq_true_eq, true_and]
      omega

theorem ip_part_sub (buf : List Nat) (bytes : Nat) (e : Event)
    (he : e ∈ (inspect_ip_csum (inspect_ip_fields buf bytes) (ip_header_len buf)).trace) :
    e ∈ (inspect buf bytes).trace := by
  by_cases h : bytes < ip_header_len buf + 8
  · rw [inspect_short buf bytes h]
    exact List.mem_append_left _ he
  · rw [inspect_long buf bytes (by omega), inspect_igmp_trace]
    exact List.mem_append_left _ he

theorem csum_207_mem (buf : List Nat) (bytes : Nat) :
    Event.csum 207 0 (ip_header_len buf : Int)
      (inet_csum (fix_ip_len buf) 0 (ip_header_len buf : Int)) ∈ (inspect buf bytes).trace := by
  apply ip_part_sub
  rw [inspect_ip_csum_trace, inspect_ip_fields_buf]
  simp

theorem ip_verdict_mem (buf : List Nat) (bytes : Nat)
    (h : inet_csum (fix_ip_len buf) 0 (ip_header_len buf : Int) ≠ 0) :
    Event.print (Line.ip_checksum_error
      (inet_csum (store16 (fix_ip_len buf) 10 0) 0 (ip_header_len buf : Int))) ∈
      (inspect buf bytes).trace := by
  apply ip_part_sub
  rw [inspect_ip_csum_trace, inspect_ip_fields_buf, if_pos h]
  simp

theorem too_short_mem (buf : List Nat) (bytes : Nat) (h : bytes < ip_header_len buf + 8) :
    Event.print (Line.too_short bytes) ∈ (inspect buf bytes).trace := by
  rw [inspect_short buf bytes h]
  simp

theorem short_no_igmp (buf : List Nat) (bytes : Nat) (h : bytes < ip_header_len buf + 8) :
    ∀ e ∈ (inspect buf bytes).trace, e.isIgmp = false := by
  intro e he
  rw [inspect_short buf bytes h] at he
  rcases List.mem_append.mp he with h1 | h1
  · have := List.all_eq_true.mp (ip_part_events buf bytes) e h1
    simp only [Bool.and_eq_true, Bool.not_eq_true'] at this
    exact this.1.1
  · simp only [List.mem_singleton] at h1
    subst h1
    rfl

theorem short_reads (buf : List Nat) (bytes : Nat) (h : bytes < ip_header_len buf + 8) :
    ∀ i, Event.read i ∈ (inspect buf bytes).trace → i < max 20 (ip_header_len buf) := by
  intro i he
  rw [inspect_short buf bytes h] at he
  rcases List.mem_append.mp he with h1 | h1
  · have := List.all_eq_true.mp (ip_part_events buf bytes) _ h1
    simp only [Bool.and_eq_true, Event.readBelow, decide_eq_true_eq] at this
    exact this.2
  · simp at h1

theorem long_not_too_short (buf : List Nat) (bytes : Nat) (h : ip_header_len buf + 8 ≤ bytes) :
    Event.print (Line.too_short bytes) ∉ (inspect buf bytes).trace := by
  intro he
  rw [inspect_long buf bytes h, inspect_igmp_trace] at he
  rcases List.mem_append.mp he with h1 | h1
  · have := List.all_eq_true.mp (ip_part_events buf bytes) _ h1
    simp [Event.isTooShort] at this
  · have := List.all_eq_true.mp (igmp_events_all _ _ bytes h) _ h1
    simp [Event.isTooShort] at this

theorem long_igmp_len_mem (buf : List Nat) (bytes : Nat) (h : ip_header_len buf + 8 ≤ bytes) :
    Event.print (Line.igmp_len (bytes - ip_header_len buf)) ∈ (inspect buf bytes).trace := by
  rw [inspect_long buf bytes h, inspect_igmp_trace]
  simp [igmp_events]

theorem ip_header_len_eq (buf : List Nat) : ip_header_len buf = 4 * (load8 buf 0 % 16) := by
  unfold ip_header_len ip_hl
  rw [Nat.shiftLeft_eq]
  omega

theorem inspect_trace_split (buf : List Nat) (bytes : Nat) :
    ∃ rest, (inspect buf bytes).trace =
      (inspect_ip_fields buf bytes).trace ++
        Event.csum 207 0 (ip_header_len buf : Int)
          (inet_csum (fix_ip_len buf) 0 (ip_header_len buf : Int)) :: rest := by
  have hip : ∃ r1, (inspect_ip_csum (inspect_ip_fields buf bytes) (ip_header_len buf)).trace =
      (inspect_ip_fields buf bytes).trace ++
        Event.csum 207 0 (ip_header_len buf : Int)
          (inet_csum (fix_ip_len buf) 0 (ip_header_len buf : Int)) :: r1 := by
    rw [inspect_ip_csum_trace, inspect_ip_fields_buf]
    simp only [List.append_assoc, List.cons_append]
    exact ⟨_, rfl⟩
  obtain ⟨r1, h1⟩ := hip
  by_cases h : bytes < ip_header_len buf + 8
  · rw [inspect_short buf bytes h, h1]
    simp only [List.append_assoc, List.cons_append]
    exact ⟨_, rfl⟩
  · rw [inspect_long buf bytes (by omega), inspect_igmp_trace, h1]
    simp only [List.append_assoc, List.cons_append]
    exact ⟨_, rfl⟩

theorem fixed_field_read_mem (buf : List Nat) (bytes : Nat) :
    Event.read 19 ∈ (inspect buf bytes).trace := by
  apply ip_part_sub
  rw [inspect_ip_csum_trace, inspect_ip_fields_trace]
  simp

theorem htons_bytes (t : Nat) (h : t ≤ 65535) :
    htons t % 256 = t / 256 ∧ htons t / 256 % 256 = t % 256 := by
  unfold htons
  rw [Nat.mod_eq_of_lt (show t < 65536 by omega)]
  constructor
  · rw [Nat.mul_comm, Nat.mul_add_mod]
    exact Nat.mod_eq_of_lt (by omega)
  · rw [Nat.mul_comm, Nat.mul_add_div (by omega), Nat.div_eq_of_lt (show t / 256 < 256 by omega)]
    simp

theorem load8_set (m : List Nat) (i v k : Nat) :
    load8 (m.set i v) k = if k = i ∧ i < m.length then v else load8 m k := by
  by_cases h : k = i
  · subst h
    by_cases hl : k < m.length
    · simp [load8_set_eq m k v hl, hl]
    · simp only [hl, and_false, if_false]
      rw [List.set_eq_of_length_le (by omega)]
  · simp only [h, false_and, if_false]
    exact load8_set_ne m i k v (Ne.symm h)

theorem load8_store16 (m : List Nat) (i x k : Nat) (h : i + 2 ≤ m.length) :
    load8 (store16 m i x) k =
      if k = i then x % 256 else if k = i + 1 then x / 256 % 256 else load8 m k := by
  unfold store16
  rw [load8_set, load8_set, List.length_set]
  by_cases h0 : k = i
  · have : ¬ (k = i + 1) := by omega
    simp [h0, show i < m.length by omega]
  · by_cases h1 : k = i + 1
    · simp [h1, show i + 1 < m.length by omega]
    · simp [h0, h1]

theorem load16_store16 (m : List Nat) (i x : Nat) (h : i + 2 ≤ m.length) :
    load16 (store16 m i x) i = x % 65536 := by
  unfold load16
  rw [load8_store16 m i x i h, load8_store16 m i x (i + 1) h]
  simp
  omega

theorem igmp_error_short (buf : List Nat) (bytes : Nat) (h : bytes < ip_header_len buf + 8) :
    ¬ igmp_error_printed buf bytes := by
  rintro ⟨x, hx⟩
  have := short_no_igmp buf bytes h _ hx
  simp [Event.isIgmp] at this

theorem wordSum_odd_split :
    ∀ (l : List Nat), l.length % 2 = 1 → wordSum l = wordSum l.dropLast + l.getLastD 0
  | [], h => by simp at h
  | [a], _ => by simp [wordSum, words16]
  | [a, c], h => by simp at h
  | a :: c :: x :: l, h => by
    have ih := wordSum_odd_split (x :: l) (by simp only [List.length_cons] at h ⊢; omega)
    have e1 : (a :: c :: x :: l).dropLast = a :: c :: (x :: l).dropLast := by simp
    have e2 : (a :: c :: x :: l).getLastD 0 = (x :: l).getLastD 0 := by simp
    rw [e1, e2]
    simp only [wordSum] at ih
    simp only [wordSum, words16, List.sum_cons]
    rw [ih]
    omega

/-- C1. Checksum self-consistency: a span of at most 65536 bytes holds a 16-bit
checksum field at an even offset, fully inside the span, with both bytes zero;
`c = inet_csum(span, len)` is stored into the field in native byte order; then
`inet_csum` over the updated span returns 0. -/
theorem checksum_self_consistency (b : List Nat) (off : Nat) (hb : ByteSpan b)
    (hlen : b.length ≤ 65536) (heven : off % 2 = 0) (hin : off + 2 ≤ b.length)
    (hz0 : load8 b off = 0) (hz1 : load8 b (off + 1) = 0) :
    inet_csum (store16 b off (inet_csum b 0 (b.length : Int))) 0 (b.length : Int) = 0 := by
  have hc := inet_csum_span b hb hlen
  generalize inet_csum b 0 (b.length : Int) = c at hc ⊢
  have hw := wordSum_store16 b off c heven hin
  have hs := inet_csum_span (store16 b off c) (byteSpan_store16 b hb _ _)
    (by rw [length_store16]; exact hlen)
  rw [length_store16] at hs
  rw [hs]
  have hl : load16 b off = 0 := by simp [load16, hz0, hz1]
  rw [hl] at hw
  have hf := onesFold_le (wordSum b)
  have e : wordSum (store16 b off c) = wordSum b + (65535 - onesFold (wordSum b)) := by omega
  rw [e]
  have ht : onesFold (wordSum b + (65535 - onesFold (wordSum b))) = 65535 := by
    rw [onesFold_top]
    clear hw e hs hc
    unfold onesFold at hf ⊢
    split <;> omega
  omega

theorem checksum_self_consistency_witness :
    inet_csum (store16 [0x45, 0, 0, 0x3c, 0x1c, 0x46, 0x40, 0, 0x40, 6, 0, 0, 0xac, 0x10,
        0x0a, 0x63, 0xac, 0x10, 0x0a, 0x0c] 10
      (inet_csum [0x45, 0, 0, 0x3c, 0x1c, 0x46, 0x40, 0, 0x40, 6, 0, 0, 0xac, 0x10,
        0x0a, 0x63, 0xac, 0x10, 0x0a, 0x0c] 0 20)) 0 20 = 0 :=
  checksum_self_consistency [0x45, 0, 0, 0x3c, 0x1c, 0x46, 0x40, 0, 0x40, 6, 0, 0, 0xac,
    0x10, 0x0a, 0x63, 0xac, 0x10, 0x0a, 0x0c] 10 (by decide) (by decide) (by decide)
    (by decide) (by decide) (by decide)

/-- C2. Known vector: over the 20-byte IPv4 header
`45 00 00 3c 1c 46 40 00 40 06 b1 e6 ac 10 0a 63 ac 10 0a 0c`, `inet_csum` returns 0,
and over the same bytes with bytes 10 and 11 set to zero it returns the value
whose native-order storage is the two bytes `b1 e6`: storing it at offset 10 gives
the header back. -/
theorem known_vector :
    inet_csum [0x45, 0, 0, 0x3c, 0x1c, 0x46, 0x40, 0, 0x40, 6, 0xb1, 0xe6, 0xac, 0x10,
        0x0a, 0x63, 0xac, 0x10, 0x0a, 0x0c] 0 20 = 0 ∧
      inet_csum [0x45, 0, 0, 0x3c, 0x1c, 0x46, 0x40, 0, 0x40, 6, 0, 0, 0xac, 0x10,
        0x0a, 0x63, 0xac, 0x10, 0x0a, 0x0c] 0 20 = 0xb1 + 256 * 0xe6 ∧
      store16 [0x45, 0, 0, 0x3c, 0x1c, 0x46, 0x40, 0, 0x40, 6, 0, 0, 0xac, 0x10,
        0x0a, 0x63, 0xac, 0x10, 0x0a, 0x0c] 10
        (inet_csum [0x45, 0, 0, 0x3c, 0x1c, 0x46, 0x40, 0, 0x40, 6, 0, 0, 0xac, 0x10,
          0x0a, 0x63, 0xac, 0x10, 0x0a, 0x0c] 0 20) =
        [0x45, 0, 0, 0x3c, 0x1c, 0x46, 0x40, 0, 0x40, 6, 0xb1, 0xe6, 0xac, 0x10,
          0x0a, 0x63, 0xac, 0x10, 0x0a, 0x0c] := by
  have h1 := inet_csum_span [0x45, 0, 0, 0x3c, 0x1c, 0x46, 0x40, 0, 0x40, 6, 0xb1, 0xe6,
    0xac, 0x10, 0x0a, 0x63, 0xac, 0x10, 0x0a, 0x0c] (by decide) (by decide)
  have h2 := inet_csum_span [0x45, 0, 0, 0x3c, 0x1c, 0x46, 0x40, 0, 0x40, 6, 0, 0,
    0xac, 0x10, 0x0a, 0x63, 0xac, 0x10, 0x0a, 0x0c] (by decide) (by decide)
  have e1 : 65535 - onesFold (wordSum [0x45, 0, 0, 0x3c, 0x1c, 0x46, 0x40, 0, 0x40, 6,
    0xb1, 0xe6, 0xac, 0x10, 0x0a, 0x63, 0xac, 0x10, 0x0a, 0x0c]) = 0 := by decide
  have e2 : 65535 - onesFold (wordSum [0x45, 0, 0, 0x3c, 0x1c, 0x46, 0x40, 0, 0x40, 6,
    0, 0, 0xac, 0x10, 0x0a, 0x63, 0xac, 0x10, 0x0a, 0x0c]) = 0xb1 + 256 * 0xe6 := by decide
  rw [e1] at h1
  rw [e2] at h2
  have h1 : inet_csum _ 0 20 = 0 := h1
  have h2 : inet_csum _ 0 20 = 0xb1 + 256 * 0xe6 := h2
  refine ⟨h1, h2, ?_⟩
  rw [h2]
  decide

/-- C4, counterexample. On the span `ff ff ff ff` with the checksum field at
offset 2, the checksum over the span as received is 0 (the IP test passes), but
the checksum over the span with the field zeroed is 0, not the stored `0xffff`
(the IGMP test fails). -/
theorem validity_tests_disagree :
    ¬ (igmp_csum_ok [0xff, 0xff, 0xff, 0xff] 2 ↔ ip_csum_ok [0xff, 0xff, 0xff, 0xff]) := by
  have h1 := inet_csum_span [0xff, 0xff, 0xff, 0xff] (by decide) (by decide)
  have h2 := inet_csum_span (store16 [0xff, 0xff, 0xff, 0xff] 2 0) (by decide) (by decide)
  have e1 : 65535 - onesFold (wordSum [0xff, 0xff, 0xff, 0xff]) = 0 := by decide
  have e2 : 65535 - onesFold (wordSum (store16 [0xff, 0xff, 0xff, 0xff] 2 0)) = 0 := by decide
  rw [e1] at h1
  rw [e2] at h2
  have hip : ip_csum_ok [0xff, 0xff, 0xff, 0xff] := h1
  have higmp : ¬ igmp_csum_ok [0xff, 0xff, 0xff, 0xff] 2 := by
    unfold igmp_csum_ok
    have h3 : inet_csum (store16 [0xff, 0xff, 0xff, 0xff] 2 0) 0
        (([0xff, 0xff, 0xff, 0xff] : List Nat).length : Int) = 0 := h2
    rw [h3]
    decide
  exact fun hiff => higmp (hiff.mpr hip)

/-- C4, amended. For a span of at most 65536 bytes with a 16-bit checksum field at
an even offset inside it: unless the stored field is `0xffff` while the checksum
recomputed with the field zeroed is 0, the IGMP test (recomputed checksum equals
the stored field) holds if and only if the IP test (checksum over the span as
received is 0) holds; in the excepted case the IP test holds and the IGMP test
fails. -/
theorem validity_tests_agree (h : List Nat) (off : Nat) (hb : ByteSpan h)
    (hlen : h.length ≤ 65536) (heven : off % 2 = 0) (hin : off + 2 ≤ h.length) :
    (¬ (load16 h off = 0xffff ∧ inet_csum (store16 h off 0) 0 (h.length : Int) = 0) →
      (igmp_csum_ok h off ↔ ip_csum_ok h)) ∧
    ((load16 h off = 0xffff ∧ inet_csum (store16 h off 0) 0 (h.length : Int) = 0) →
      (ip_csum_ok h ∧ ¬ igmp_csum_ok h off)) := by
  unfold igmp_csum_ok ip_csum_ok
  have z := inet_csum_span (store16 h off 0) (byteSpan_store16 h hb _ _)
    (by rw [length_store16]; omega)
  rw [length_store16] at z
  rw [z, inet_csum_span h hb hlen]
  have s := wordSum_store16 h off 0 heven hin
  have fl := load16_lt h hb off
  have m := onesFold_mod (wordSum (store16 h off 0))
  have f := onesFold_le (wordSum (store16 h off 0))
  have m1 := onesFold_mod (wordSum h)
  have f1 := onesFold_le (wordSum h)
  have t := onesFold_top (wordSum h)
  have tz := onesFold_top (wordSum (store16 h off 0))
  generalize wordSum (store16 h off 0) = sz at *
  generalize wordSum h = sh at *
  generalize load16 h off = fld at *
  generalize onesFold sz = fz at *
  generalize onesFold sh = fh at *
  refine ⟨fun hex => ⟨fun hi => ?_, fun hp => ?_⟩, fun hex => ⟨?_, ?_⟩⟩
  · have : fh = 65535 := t.mpr (by omega)
    omega
  · have hp1 := t.mp (by omega)
    by_cases hz : sz = 0
    · omega
    · by_cases hf : fld = 65535
      · have : fz = 65535 := tz.mpr (by omega)
        omega
      · omega
  · have : fz = 65535 := by omega
    have := tz.mp this
    have : fh = 65535 := t.mpr (by omega)
    omega
  · omega

theorem validity_tests_agree_witness :
    igmp_csum_ok sample_igmp_query 2 ↔ ip_csum_ok sample_igmp_query :=
  (validity_tests_agree sample_igmp_query 2 (by decide) (by decide) (by decide)
    (by decide)).1 (fun hex => absurd hex.1 (by decide))

/-- C5. Platform length-quirk correction: the header-length field is `hl` and
the received total-length field holds `L` in host order, with `4 * hl + L ≤ 65535`;
then after line 199 the two bytes of the field are the big-endian encoding of
`4 * hl + L`, and in the run of the loop body the two stores come before the
first call of `inet_csum`, which is the one of line 207 over the corrected
buffer. -/
theorem length_quirk_correction (buf : List Nat) (bytes hl L : Nat) (hlen : 4 ≤ buf.length)
    (hhl : ip_hl buf = hl) (hL : load16 buf 2 = L) (hsum : 4 * hl + L ≤ 65535) :
    load8 (fix_ip_len buf) 2 = (4 * hl + L) / 256 ∧
    load8 (fix_ip_len buf) 3 = (4 * hl + L) % 256 ∧
    ∃ before between after,
      (inspect buf bytes).trace =
        before ++ Event.write 2 ((4 * hl + L) / 256) :: Event.write 3 ((4 * hl + L) % 256) ::
          (between ++ Event.csum 207 0 ((4 * hl : Nat) : Int)
            (inet_csum (fix_ip_len buf) 0 ((4 * hl : Nat) : Int)) :: after) ∧
      (∀ e ∈ before, e.isCsum = false) ∧ (∀ e ∈ between, e.isCsum = false) := by
  have hihl : ip_header_len buf = 4 * hl := by
    rw [ip_header_len_eq]; unfold ip_hl at hhl; rw [hhl]
  have hb := htons_bytes (4 * hl + L) hsum
  have e2 : load8 (fix_ip_len buf) 2 = (4 * hl + L) / 256 := by
    unfold fix_ip_len store16
    rw [hihl, hL, load8_set_ne _ _ _ _ (by omega), load8_set_eq _ _ _ (by omega)]
    exact hb.1
  have e3 : load8 (fix_ip_len buf) 3 = (4 * hl + L) % 256 := by
    unfold fix_ip_len store16
    rw [hihl, hL, load8_set_eq _ _ _ (by rw [List.length_set]; omega)]
    exact hb.2
  refine ⟨e2, e3, ?_⟩
  obtain ⟨rest, hr⟩ := inspect_trace_split buf bytes
  rw [inspect_ip_fields_trace, hihl, hL, hb.1, hb.2] at hr
  refine ⟨[Event.print (Line.received bytes), Event.read 0,
      Event.read 12, Event.read 13, Event.read 14, Event.read 15,
      Event.print (Line.ip_src (load8 buf 12) (load8 buf 13) (load8 buf 14) (load8 buf 15)),
      Event.read 16, Event.read 17, Event.read 18, Event.read 19,
      Event.print (Line.ip_dst (load8 buf 16) (load8 buf 17) (load8 buf 18) (load8 buf 19)),
      Event.read 2, Event.read 3],
    [Event.read 0, Event.print (Line.ip_hl (ip_hl (fix_ip_len buf) <<< 2)),
      Event.read 2, Event.read 3,
      Event.print (Line.ip_len (ntohs (load16 (fix_ip_len buf) 2))),
      Event.read 6, Event.read 7,
      Event.print (Line.ip_off (ntohs (load16 (fix_ip_len buf) 6) &&& 0x1fff)),
      Event.read 6, Event.read 7,
      Event.print (Line.ip_flags (ntohs (load16 (fix_ip_len buf) 6) &&& 0xe000)),
      Event.read 10, Event.read 11,
      Event.print (Line.ip_csum (load16 (fix_ip_len buf) 10))], rest, ?_, ?_, ?_⟩
  · rw [hr]; rfl
  · simp [Event.isCsum]
  · simp [Event.isCsum]

theorem length_quirk_correction_witness :
    load8 (fix_ip_len sample_quirked_header) 2 = 0x00 ∧
    load8 (fix_ip_len sample_quirked_header) 3 = 0x20 ∧
    ∃ before between after,
      (inspect sample_quirked_header 20).trace =
        before ++ Event.write 2 0x00 :: Event.write 3 0x20 ::
          (between ++ Event.csum 207 0 20
            (inet_csum (fix_ip_len sample_quirked_header) 0 20) :: after) ∧
      (∀ e ∈ before, e.isCsum = false) ∧ (∀ e ∈ between, e.isCsum = false) :=
  length_quirk_correction sample_quirked_header 20 5 12 (by decide) (by decide) (by decide)
    (by decide)

/-- C6, counterexample. The header `45 ..` announces 20 header bytes and
`recvfrom` has returned 10: the loop body still calls `inet_csum` over 20 bytes
(line 207), prints the verdict `IP checksum error` and loads byte 19. -/
theorem header_length_guard_absent :
    10 < ip_header_len sample_ip_header ∧
    Event.csum 207 0 20 10180 ∈ (inspect sample_ip_header 10).trace ∧
    Event.print (Line.ip_checksum_error 3702) ∈ (inspect sample_ip_header 10).trace ∧
    Event.read 19 ∈ (inspect sample_ip_header 10).trace ∧ 10 ≤ 19 := by
  have hl : ip_header_len sample_ip_header = 20 := by decide
  have hc : inet_csum (fix_ip_len sample_ip_header) 0 ((20 : Nat) : Int) = 10180 := by
    rw [inet_csum_eq _ (by decide) 0 20 (by decide)]
    decide
  have hx : inet_csum (store16 (fix_ip_len sample_ip_header) 10 0) 0 ((20 : Nat) : Int) =
      3702 := by
    rw [inet_csum_eq _ (by decide) 0 20 (by decide)]
    decide
  have h1 := csum_207_mem sample_ip_header 10
  have h2 := ip_verdict_mem sample_ip_header 10 (by rw [hl, hc]; decide)
  rw [hl, hc] at h1
  rw [hl, hx] at h2
  exact ⟨by rw [hl]; decide, h1, h2, fixed_field_read_mem _ _, by decide⟩

/-- C6, amended. When `ip_header_len` exceeds the received byte count, the loop
body does not abort before the IP checksum: it calls `inet_csum` over
`ip_header_len` bytes of the packet buffer (line 207), and then stops at the
IGMP length check: it prints the `too short for IGMP` line and does nothing of
the IGMP part. -/
theorem header_length_exceeds_bytes (buf : List Nat) (bytes : Nat)
    (h : bytes < ip_header_len buf) :
    Event.csum 207 0 (ip_header_len buf : Int)
      (inet_csum (fix_ip_len buf) 0 (ip_header_len buf : Int)) ∈ (inspect buf bytes).trace ∧
    Event.print (Line.too_short bytes) ∈ (inspect buf bytes).trace ∧
    ∀ e ∈ (inspect buf bytes).trace, e.isIgmp = false :=
  ⟨csum_207_mem buf bytes, too_short_mem buf bytes (by omega),
    short_no_igmp buf bytes (by omega)⟩

theorem header_length_exceeds_bytes_witness :
    Event.csum 207 0 (ip_header_len sample_ip_header : Int)
      (inet_csum (fix_ip_len sample_ip_header) 0 (ip_header_len sample_ip_header : Int)) ∈
        (inspect sample_ip_header 10).trace ∧
    Event.print (Line.too_short 10) ∈ (inspect sample_ip_header 10).trace ∧
    ∀ e ∈ (inspect sample_ip_header 10).trace, e.isIgmp = false :=
  header_length_exceeds_bytes sample_ip_header 10 (by decide)

/-- C7, counterexample. The first byte `40` gives `ip_header_len = 0`; with
`bytes = 7 = ip_header_len + 7` the `too short for IGMP` line is printed, but the
loop body has loaded byte 19 (of `ip_dst`), an index not below `bytes`. -/
theorem igmp_guard_reads_past_bytes :
    7 = ip_header_len sample_no_header + 7 ∧
    Event.print (Line.too_short 7) ∈ (inspect sample_no_header 7).trace ∧
    ¬ (∀ i, Event.read i ∈ (inspect sample_no_header 7).trace → i < 7) := by
  refine ⟨by decide, too_short_mem _ _ (by decide), fun hall => ?_⟩
  have := hall 19 (fixed_field_read_mem _ _)
  omega

/-- C7, amended. The `too short for IGMP` line is printed if and only if
`bytes < ip_header_len + 8`, and nothing of the IGMP part is done (no IGMP line,
no call of `inet_csum` at line 234) if and only if `bytes < ip_header_len + 8`;
in particular with `bytes = ip_header_len + 7` the line is printed, and when the
buffer holds the 20 bytes of a minimal IP header (`20 ≤ bytes`) no byte at an
index `≥ bytes` is loaded. -/
theorem igmp_length_guard (buf : List Nat) (bytes : Nat) :
    (Event.print (Line.too_short bytes) ∈ (inspect buf bytes).trace ↔
      bytes < ip_header_len buf + 8) ∧
    ((∀ e ∈ (inspect buf bytes).trace, e.isIgmp = false) ↔ bytes < ip_header_len buf + 8) ∧
    (bytes = ip_header_len buf + 7 →
      Event.print (Line.too_short bytes) ∈ (inspect buf bytes).trace ∧
      (20 ≤ bytes → ∀ i, Event.read i ∈ (inspect buf bytes).trace → i < bytes)) := by
  refine ⟨⟨fun hm => ?_, too_short_mem buf bytes⟩, ⟨fun hn => ?_, short_no_igmp buf bytes⟩,
    fun hb => ⟨too_short_mem buf bytes (by omega), fun h20 i hi => ?_⟩⟩
  · by_contra hc
    exact long_not_too_short buf bytes (by omega) hm
  · by_contra hc
    have := hn _ (long_igmp_len_mem buf bytes (by omega))
    simp [Event.isIgmp] at this
  · have := short_reads buf bytes (by omega) i hi
    omega

theorem igmp_length_guard_witness :
    Event.print (Line.too_short 27) ∈
      (inspect (sample_ip_header ++ [0x11, 0, 0xee, 0xff, 0, 0, 0]) 27).trace ∧
    ∀ i, Event.read i ∈ (inspect (sample_ip_header ++ [0x11, 0, 0xee, 0xff, 0, 0, 0]) 27).trace →
      i < 27 :=
  ⟨((igmp_length_guard (sample_ip_header ++ [0x11, 0, 0xee, 0xff, 0, 0, 0]) 27).2.2
      (by decide)).1,
    ((igmp_length_guard (sample_ip_header ++ [0x11, 0, 0xee, 0xff, 0, 0, 0]) 27).2.2
      (by decide)).2 (by decide)⟩

/-- C8. Odd-length padding: an odd-length span `b` of at most 65535 bytes lies
anywhere in memory (after `front`, before `rest`). `inet_csum` over `b` followed
by a zero byte, with length `len + 1`, equals `inet_csum` over `b` with length
`len`, whatever bytes follow the span; the accumulator of `inet_csum` over `b`
is the exact sum of the complete words of `b` plus the word whose low byte is the
trailing byte of `b` and whose high byte is zero; the bytes loaded are those of
the span and no other; and the value returned is the 16-bit complement of that
sum folded to 16 bits. -/
theorem odd_length_padding (front b rest rest0 : List Nat)
    (hm : ByteSpan (front ++ (b ++ rest))) (hm0 : ByteSpan (front ++ ((b ++ [0]) ++ rest0)))
    (hodd : b.length % 2 = 1) (hlen : b.length ≤ 65535) :
    inet_csum (front ++ ((b ++ [0]) ++ rest0)) front.length ((b.length : Int) + 1) =
      inet_csum (front ++ (b ++ rest)) front.length (b.length : Int) ∧
    inet_csum_sum (front ++ (b ++ rest)) front.length (b.length : Int) =
      (wordSum b.dropLast + (b.getLastD 0 + 256 * 0), List.range' front.length b.length) ∧
    inet_csum (front ++ (b ++ rest)) front.length (b.length : Int) =
      65535 - fold_carries (wordSum b.dropLast + (b.getLastD 0 + 256 * 0)) := by
  have hs : spanSum (front ++ (b ++ rest)) front.length b.length = wordSum b :=
    spanSum_append b front rest
  have hs0 : spanSum (front ++ ((b ++ [0]) ++ rest0)) front.length (b.length + 1) =
      wordSum (b ++ [0]) := by
    have := spanSum_append (b ++ [0]) front rest0
    simpa using this
  have hsplit := wordSum_odd_split b hodd
  have hle := spanSum_le _ hm b.length front.length
  have hlt : spanSum (front ++ (b ++ rest)) front.length b.length < 2 ^ 32 := by omega
  have h1 := inet_csum_eq _ hm front.length b.length (by omega)
  have h0 := inet_csum_eq _ hm0 front.length (b.length + 1) (by omega)
  have e : ((b.length + 1 : Nat) : Int) = (b.length : Int) + 1 := by simp
  rw [e, hs0, wordSum_append_zero b hodd] at h0
  rw [hs] at h1
  refine ⟨by rw [h0, h1], ?_, ?_⟩
  · rw [inet_csum_sum_spec _ _ _ hlt, hs, hsplit]
    simp
  · rw [h1, fold_carries_eq, hsplit]
    simp

theorem odd_length_padding_witness :
    inet_csum ([0xaa, 0xbb] ++ (([1, 2, 3] ++ [0]) ++ [0x77])) 2 (3 + 1) =
      inet_csum ([0xaa, 0xbb] ++ ([1, 2, 3] ++ [0xff])) 2 3 ∧
    inet_csum_sum ([0xaa, 0xbb] ++ ([1, 2, 3] ++ [0xff])) 2 3 = (1 + 256 * 2 + 3, [2, 3, 4]) ∧
    inet_csum ([0xaa, 0xbb] ++ ([1, 2, 3] ++ [0xff])) 2 3 = 65535 - (1 + 256 * 2 + 3) := by
  have h := odd_length_padding [0xaa, 0xbb] [1, 2, 3] [0xff] [0x77] (by decide) (by decide)
    (by decide) (by decide)
  have e : fold_carries (wordSum [1, 2, 3].dropLast + (([1, 2, 3] : List Nat).getLastD 0 + 256 * 0)) =
      1 + 256 * 2 + 3 := by
    rw [fold_carries_eq]
    decide
  rw [e] at h
  exact h

/-- C9. Two folds suffice: for a span of at most 65536 bytes the 32-bit
accumulator of `inet_csum` never wraps (after any number `k` of bytes it holds
the exact sum of the words of the first `k` bytes, which is below `2 ^ 32`, and
neither fold addition reaches `2 ^ 32`), and the value returned is the 16-bit
complement of the sum folded until it fits in 16 bits. -/
theorem two_folds_suffice (b : List Nat) (hb : ByteSpan b) (hlen : b.length ≤ 65536) :
    (∀ k, k ≤ b.length →
      (inet_csum_sum b 0 (k : Int)).1 = wordSum (b.take k) ∧ wordSum (b.take k) < 2 ^ 32) ∧
    (wordSum b >>> 16) + (wordSum b &&& 0xffff) < 2 ^ 32 ∧
    ((wordSum b >>> 16) + (wordSum b &&& 0xffff)) +
      (((wordSum b >>> 16) + (wordSum b &&& 0xffff)) >>> 16) < 2 ^ 32 ∧
    inet_csum b 0 (b.length : Int) = rfc1071 b := by
  have hall : ∀ k, k ≤ b.length → spanSum b 0 k < 2 ^ 32 := by
    intro k hk
    have := spanSum_le b hb k 0
    omega
  have hw : wordSum b < 2 ^ 32 := by
    have := hall b.length le_rfl
    rwa [spanSum_whole] at this
  have e3 : ∀ t : Nat, t >>> 16 = t / 65536 := fun t => by rw [Nat.shiftRight_eq_div_pow]
  have e2 : wordSum b &&& 0xffff = wordSum b % 65536 := Nat.and_pow_two_sub_one_eq_mod _ 16
  refine ⟨fun k hk => ?_, ?_, ?_, ?_⟩
  · have h := hall k hk
    rw [inet_csum_sum_spec b 0 k h, ← spanSum_take b k hk]
    exact ⟨rfl, h⟩
  · rw [e3, e2]; omega
  · rw [e3, e3, e2]; omega
  · rw [inet_csum_span b hb hlen, rfc1071, fold_carries_eq]

theorem two_folds_suffice_witness :
    (∀ k, k ≤ sample_ip_header.length →
      (inet_csum_sum sample_ip_header 0 (k : Int)).1 = wordSum (sample_ip_header.take k) ∧
        wordSum (sample_ip_header.take k) < 2 ^ 32) ∧
    (wordSum sample_ip_header >>> 16) + (wordSum sample_ip_header &&& 0xffff) < 2 ^ 32 ∧
    ((wordSum sample_ip_header >>> 16) + (wordSum sample_ip_header &&& 0xffff)) +
      (((wordSum sample_ip_header >>> 16) + (wordSum sample_ip_header &&& 0xffff)) >>> 16)
        < 2 ^ 32 ∧
    inet_csum sample_ip_header 0 (sample_ip_header.length : Int) = rfc1071 sample_ip_header :=
  two_folds_suffice sample_ip_header (by decide) (by decide)

/-- C10, counterexample. For the first byte `45` the loop body uses
`ip_header_len = 20`, four times the low nibble, not `16`, four times the upper
nibble. -/
theorem header_length_not_upper_nibble :
    load8 sample_ip_header 0 = 0x45 ∧ ip_header_len sample_ip_header = 20 ∧
    ip_header_len sample_ip_header ≠ 4 * (load8 sample_ip_header 0 / 16) := by
  decide

/-- C10, amended. The `ip_header_len` the loop body uses is 4 times the low
nibble of the first byte of the buffer: it is the length of the IP checksum of
line 207 and, when the IGMP part is entered, the offset of the IGMP header in
the call of line 234. -/
theorem header_length_extraction (buf : List Nat) (bytes : Nat) :
    ip_header_len buf = 4 * (load8 buf 0 % 16) ∧
    Event.csum 207 0 ((4 * (load8 buf 0 % 16) : Nat) : Int)
      (inet_csum (fix_ip_len buf) 0 ((4 * (load8 buf 0 % 16) : Nat) : Int)) ∈
        (inspect buf bytes).trace ∧
    (4 * (load8 buf 0 % 16) + 8 ≤ bytes →
      ∃ c, Event.csum 234 (4 * (load8 buf 0 % 16))
        ((bytes - 4 * (load8 buf 0 % 16) : Nat) : Int) c ∈ (inspect buf bytes).trace) := by
  have e := ip_header_len_eq buf
  refine ⟨e, ?_, fun h => ?_⟩
  · rw [← e]; exact csum_207_mem buf bytes
  · rw [← e] at h ⊢
    rw [inspect_long buf bytes h, inspect_igmp_trace]
    refine ⟨inet_csum (store16 (inspect_ip_csum (inspect_ip_fields buf bytes)
      (ip_header_len buf)).buf (ip_header_len buf + 2) 0) (ip_header_len buf)
      ((bytes - ip_header_len buf : Nat) : Int), List.mem_append_right _ ?_⟩
    simp [igmp_events]

theorem header_length_extraction_witness :
    ∃ c, Event.csum 234 20 8 c ∈ (inspect (sample_ip_header ++ sample_igmp_query) 28).trace :=
  (header_length_extraction (sample_ip_header ++ sample_igmp_query) 28).2.2 (by decide)

end MacosIpChecksum
